import Mathlib

/-!
Verification of the Event-calendar core: the undo/redo history engine, the
event-collection operations, the scheduling-conflict validator and the
drag/resize date reconciliation, shallowly embedded from the TypeScript
sources (`CalendarView.tsx`, `EventModal.tsx`, the `dateTime` utilities and
the `Event` type declarations).

Modelling conventions:
* A JavaScript `Date` is embedded as `JSDate`: a civil triple
  `(year, month, day)` together with the minute-of-day.  `month` is the
  1-based civil month (the TS code passes 0-based months to the `Date`
  constructor; the embedding keeps the civil convention, a constant shift).
  The `day` field may lie outside `1..daysInMonth`: JS normalizes such
  triples, and the timestamp of an unnormalized triple is computed through
  `daysFromCivil`, which is linear in `day` and therefore agrees with JS
  normalization.  All order comparisons between `Date`s go through the
  timestamp `JSDate.toMin`, exactly as JS compares epoch milliseconds
  (scaled to minutes: the sources only ever produce whole-minute times).
* A time-of-day string `"HH:MM"` is embedded as the pair `HM` of its two
  numeric components, i.e. the result of `time.split(':').map(Number)`.
* Event identities are `String`s, as in the sources.
-/

/-- The two numeric components of a `"HH:MM"` time string, i.e. the result
of `time.split(':').map(Number)` in the TS sources. -/
structure HM where
  hours : Nat
  minutes : Nat
deriving DecidableEq, Repr

/-- `timeToMinutes` from `utils/dateTime.ts`: `hours * 60 + minutes`. -/
def timeToMinutes (t : HM) : Nat :=
  t.hours * 60 + t.minutes

/-- The integer produced by `parseInt(time.replace(":", ""))` in
`isValidDropDate` (CalendarView.tsx): the concatenated `HHMM` digits, which
for a time with a two-digit minute field equals `hours * 100 + minutes`. -/
def hhmmCode (t : HM) : Nat :=
  t.hours * 100 + t.minutes

/-- `doTimesOverlap` from `utils/dateTime.ts`:
`start1Mins < end2Mins && end1Mins > start2Mins` on minute encodings. -/
def doTimesOverlap (s1 e1 s2 e2 : HM) : Bool :=
  decide (timeToMinutes s1 < timeToMinutes e2) && decide (timeToMinutes e1 > timeToMinutes s2)

/-- The inline overlap test of `isValidDropDate` (CalendarView.tsx):
`eventStart < existingEnd && eventEnd > existingStart` on the
`parseInt(time.replace(":", ""))` encodings. -/
def hhmmOverlap (s1 e1 s2 e2 : HM) : Bool :=
  decide (hhmmCode s1 < hhmmCode e2) && decide (hhmmCode e1 > hhmmCode s2)

/-- The event category, `EventType` from `types/Event.ts`:
the closed set `{work, personal, meeting, other}`. -/
inductive EventType where
  | work
  | personal
  | meeting
  | other
deriving DecidableEq, Repr

/-- Day count of the proleptic Gregorian civil date `(y, m, d)` relative to
the epoch 1970-01-01, computed by the standard era-based algorithm (the same
calendar arithmetic JS `Date` uses for local wall-clock dates).  `Int`
division truncates toward zero exactly like the reference algorithm expects.
The expression is linear in `d`, so an out-of-range `d` denotes the same
instant that JS `Date` normalization assigns to it. -/
def daysFromCivil (y m d : Int) : Int :=
  let yAdj : Int := if m ≤ 2 then y - 1 else y
  let era : Int := (if 0 ≤ yAdj then yAdj else yAdj - 399) / 400
  let yoe : Int := yAdj - era * 400
  let mp : Int := if 2 < m then m - 3 else m + 9
  let doy : Int := (153 * mp + 2) / 5 + d - 1
  let doe : Int := yoe * 365 + yoe / 4 - yoe / 100 + doy
  era * 146097 + doe - 719468

/-- A JS `Date` value: civil triple plus minute-of-day.  See the module
conventions above. -/
structure JSDate where
  year : Int
  month : Int
  day : Int
  minute : Nat
deriving DecidableEq, Repr

/-- The absolute (epoch-relative) calendar day a `JSDate` lies on. -/
def JSDate.dayNumber (dt : JSDate) : Int :=
  daysFromCivil dt.year dt.month dt.day

/-- The timestamp of a `JSDate`, in minutes since the epoch: the quantity JS
`Date` comparisons compare (epoch milliseconds, scaled). -/
def JSDate.toMin (dt : JSDate) : Int :=
  1440 * dt.dayNumber + (dt.minute : Int)

/-- `date.setHours(0, 0, 0, 0)`: midnight of the date's calendar day. -/
def JSDate.setHours0 (dt : JSDate) : JSDate :=
  { dt with minute := 0 }

/-- `date.setFullYear(date.getFullYear() + 1)`: same civil month/day, next
year (JS normalizes Feb 29 to Mar 1 in a non-leap year; the linear-in-day
timestamp does the same). -/
def JSDate.setYearPlusOne (dt : JSDate) : JSDate :=
  { dt with year := dt.year + 1 }

/-- `date.getDate()`: the day-of-month.  Faithful to JS on normalized
triples (every `Date` the sources build from calendar-grid days). -/
def JSDate.getDate (dt : JSDate) : Int :=
  dt.day

/-- The `CalendarEvent` record from `types/Event.ts`.  The extra `date`
field is not declared in the TS interface — reading it on a stored event
yields `undefined` — but `findOverlappingEvent` in `utils/dateTime.ts`
accesses it, so the embedding carries it as an `Option` that is `none` on
every event the calendar stores. -/
structure CalendarEvent where
  id : String
  title : String
  description : String
  startDate : JSDate
  endDate : JSDate
  startTime : HM
  endTime : HM
  type : EventType
  isMultiDay : Bool
  date : Option JSDate := none
deriving DecidableEq, Repr

/-- The `HistoryState` of `CalendarView.tsx`: `past` snapshots (oldest
first), the current collection, and `future` snapshots (nearest first). -/
structure HistoryState where
  past : List (List CalendarEvent)
  present : List CalendarEvent
  future : List (List CalendarEvent)
deriving DecidableEq, Repr

/-- `pushToHistory` (CalendarView.tsx): push `present` onto `past`, install
the new collection, clear `future`.  Every committed mutation in the file
(`handleSaveEvent`, `handleDeleteEvent`, `handleUpdateEvent`,
`handleDragEnd`, `handleResize`, `handleModalSave`) performs exactly this
update. -/
def pushToHistory (h : HistoryState) (newEvents : List CalendarEvent) : HistoryState :=
  { past := h.past ++ [h.present], present := newEvents, future := [] }

/-- `undo` (CalendarView.tsx): no-op on empty `past`, else move the newest
`past` entry into `present` and push the old `present` onto `future`. -/
def undo (h : HistoryState) : HistoryState :=
  match h.past.getLast? with
  | none => h
  | some p => { past := h.past.dropLast, present := p, future := h.present :: h.future }

/-- `redo` (CalendarView.tsx): no-op on empty `future`, else move the
nearest `future` entry into `present` and push the old `present` onto
`past`. -/
def redo (h : HistoryState) : HistoryState :=
  match h.future with
  | [] => h
  | f :: rest => { past := h.past ++ [h.present], present := f, future := rest }

/-- A sequence of committed mutations `c1..cn`, applied left to right. -/
def commitList (h : HistoryState) (cs : List (List CalendarEvent)) : HistoryState :=
  cs.foldl pushToHistory h

/-- `undo` applied `n` times. -/
def undoN : Nat → HistoryState → HistoryState
  | 0, h => h
  | n + 1, h => undoN n (undo h)

/-- `redo` applied `n` times. -/
def redoN : Nat → HistoryState → HistoryState
  | 0, h => h
  | n + 1, h => redoN n (redo h)

theorem commitList_cons (h : HistoryState) (c : List CalendarEvent)
    (cs : List (List CalendarEvent)) :
    commitList h (c :: cs) = commitList (pushToHistory h c) cs := rfl

/-- Shape of the state after a nonempty sequence of commits. -/
theorem commitList_eq (h : HistoryState) (c : List CalendarEvent)
    (cs : List (List CalendarEvent)) :
    commitList h (c :: cs) =
      { past := h.past ++ h.present :: (c :: cs).dropLast,
        present := (c :: cs).getLast (by simp),
        future := [] } := by
  induction cs generalizing h c with
  | nil => simp [commitList, pushToHistory]
  | cons c2 cs ih =>
    rw [commitList_cons, ih]
    simp [pushToHistory, List.getLast_cons]

/-- Undoing `l.length + 1` times from a state whose past is `q ++ a :: l`
peels the whole suffix `a :: l` back off, restoring `a` as present. -/
theorem undoN_concat (l : List (List CalendarEvent)) :
    ∀ (q : List (List CalendarEvent)) (a p : List CalendarEvent)
      (f : List (List CalendarEvent)),
      undoN (l.length + 1) { past := q ++ a :: l, present := p, future := f } =
        { past := q, present := a, future := l ++ p :: f } := by
  induction l using List.reverseRecOn with
  | nil =>
    intro q a p f
    simp only [List.length_nil, Nat.zero_add, List.nil_append]
    show undoN 0 (undo { past := q ++ [a], present := p, future := f }) = _
    simp [undoN, undo]
  | append_singleton l b ih =>
    intro q a p f
    have hre : q ++ a :: (l ++ [b]) = (q ++ a :: l) ++ [b] := by simp
    have hstep : undo { past := (q ++ a :: l) ++ [b], present := p, future := f } =
        { past := q ++ a :: l, present := b, future := p :: f } := by
      simp only [undo, List.getLast?_concat, List.dropLast_concat]
    have hlen : (l ++ [b]).length + 1 = (l.length + 1) + 1 := by simp
    rw [hlen, hre]
    show undoN (l.length + 1) (undo { past := (q ++ a :: l) ++ [b], present := p, future := f }) = _
    rw [hstep, ih]
    simp

/-- Redoing `t.length + 1` times replays the whole future prefix
`a :: t`. -/
theorem redoN_cons (t : List (List CalendarEvent)) :
    ∀ (q : List (List CalendarEvent)) (p a : List CalendarEvent)
      (f : List (List CalendarEvent)),
      redoN (t.length + 1) { past := q, present := p, future := (a :: t) ++ f } =
        { past := q ++ p :: (a :: t).dropLast,
          present := (a :: t).getLast (by simp),
          future := f } := by
  induction t with
  | nil =>
    intro q p a f
    simp only [List.length_nil, Nat.zero_add, List.cons_append, List.nil_append]
    show redoN 0 (redo { past := q, present := p, future := a :: f }) = _
    simp [redoN, redo]
  | cons b t ih =>
    intro q p a f
    show redoN (t.length + 1) (redo { past := q, present := p, future := a :: ((b :: t) ++ f) }) = _
    rw [show redo { past := q, present := p, future := a :: ((b :: t) ++ f) } =
        { past := q ++ [p], present := a, future := (b :: t) ++ f } from rfl, ih]
    simp [List.getLast_cons]

/-- **C1.** History law: committing any sequence `c1..cn` on top of any
initial history `h`, then undoing `n` times, returns `present` to its
pre-`c1` value; redoing `n` times after that restores `present` to its
post-`cn` value (indeed the whole post-commit state). -/
theorem history_undo_redo_roundtrip (h : HistoryState) (cs : List (List CalendarEvent)) :
    (undoN cs.length (commitList h cs)).present = h.present ∧
      redoN cs.length (undoN cs.length (commitList h cs)) = commitList h cs := by
  cases cs with
  | nil => exact ⟨rfl, rfl⟩
  | cons c cs =>
    have hlen : (c :: cs).length = (c :: cs).dropLast.length + 1 := by
      simp
    have hu : undoN (c :: cs).length (commitList h (c :: cs)) =
        { past := h.past, present := h.present,
          future := (c :: cs).dropLast ++ (c :: cs).getLast (by simp) :: [] } := by
      rw [commitList_eq, hlen, undoN_concat]
    have hfut : (c :: cs).dropLast ++ (c :: cs).getLast (by simp) :: [] = c :: cs := by
      simpa using List.dropLast_concat_getLast (l := c :: cs) (by simp)
    constructor
    · rw [hu]
    · rw [hu, hfut]
      have hr := redoN_cons cs h.past h.present c []
      simp only [List.append_nil] at hr
      rw [show (c :: cs).length = cs.length + 1 from rfl, hr, commitList_eq]

/-- **C2.** Every commit clears `future`; in particular a commit performed
after any number of undos makes a subsequent `redo` a no-op. -/
theorem commit_clears_future (h : HistoryState) (c : List CalendarEvent) (k : Nat) :
    (pushToHistory h c).future = [] ∧
      redo (pushToHistory (undoN k h) c) = pushToHistory (undoN k h) c := by
  exact ⟨rfl, rfl⟩

/-- Linearity of `daysFromCivil` in the day component: this is why JS day
normalization (rolling `Jan 32` over to `Feb 1`, stepping `setDate` across
month ends) is captured by plain integer arithmetic on the `day` field. -/
theorem daysFromCivil_day_succ (y m d : Int) :
    daysFromCivil y m (d + 1) = daysFromCivil y m d + 1 := by
  simp only [daysFromCivil]
  ring

theorem daysFromCivil_day_shift (y m a b : Int) :
    daysFromCivil y m a = daysFromCivil y m b + (a - b) := by
  simp only [daysFromCivil]
  ring

/-- The rejection reasons of `isValidDropDate` (CalendarView.tsx), in the
spec's `ValidationError` vocabulary: "Cannot schedule events in the past",
"Cannot schedule events more than a year in advance", "Time conflict with
existing event". -/
inductive DropError where
  | pastDate
  | horizonExceeded
  | timeConflict
deriving DecidableEq, Repr

/-- `isDateInEventRange` (CalendarView.tsx): zero the time-of-day of the
date and of copies of the event's boundary dates, then test containment by
timestamp.  (The function also mutates its `date` argument in place by
calling `setHours(0,0,0,0)` on it; that side effect is modelled at the call
site in `conflictLoop`.) -/
def isDateInEventRange (date : JSDate) (ev : CalendarEvent) : Bool :=
  decide ((ev.startDate.setHours0).toMin ≤ (date.setHours0).toMin) &&
    decide ((date.setHours0).toMin ≤ (ev.endDate.setHours0).toMin)

/-- One day's work inside `isValidDropDate`'s scanning loop: filter the
collection to the events occupying `cur`'s calendar day other than the
candidate itself, and test the candidate's `HHMM`-encoded time range
against each for overlap. -/
def hasConflictOn (present : List CalendarEvent) (ev : CalendarEvent) (cur : JSDate) : Bool :=
  (present.filter fun x => isDateInEventRange cur x && x.id != ev.id).any fun x =>
    hhmmOverlap ev.startTime ev.endTime x.startTime x.endTime

/-- The same day conflict test, phrased on an absolute calendar day
number instead of a `JSDate`; used to state the loop characterization. -/
def dayConflict (present : List CalendarEvent) (ev : CalendarEvent) (d : Int) : Bool :=
  (present.filter fun x =>
      (decide (x.startDate.dayNumber ≤ d) && decide (d ≤ x.endDate.dayNumber)) &&
        x.id != ev.id).any fun x =>
    hhmmOverlap ev.startTime ev.endTime x.startTime x.endTime

/-- The `while (currentDate <= newEndDate)` loop of `isValidDropDate`.
Each iteration filters the day's events and tests for a time conflict, then
advances the cursor one calendar day via `setDate(getDate() + 1)`.  The
cursor's time-of-day is zeroed from the first filter application onward
because `isDateInEventRange` calls `setHours(0,0,0,0)` on the loop variable
itself — which happens exactly when the collection is nonempty. -/
def conflictLoop (present : List CalendarEvent) (ev : CalendarEvent) (stop : JSDate)
    (cur : JSDate) : Option DropError :=
  if _hle : cur.toMin ≤ stop.toMin then
    if hasConflictOn present ev cur then some .timeConflict
    else
      conflictLoop present ev stop
        { year := cur.year, month := cur.month, day := cur.day + 1,
          minute := if present.isEmpty then cur.minute else 0 }
  else none
termination_by (stop.toMin + 1440 - 1440 * cur.dayNumber).toNat
decreasing_by
  simp only [JSDate.toMin, JSDate.dayNumber, daysFromCivil_day_succ] at *
  omega

/-- `isValidDropDate` (CalendarView.tsx), with its result represented as
the rejection reason (`none` = the drop is accepted).  The ambient reads of
`new Date()` and `history.present` are passed explicitly. -/
def isValidDropDate (now : JSDate) (present : List CalendarEvent) (event : CalendarEvent)
    (newStartDate newEndDate : JSDate) : Option DropError :=
  if newStartDate.toMin < (now.setHours0).toMin then some .pastDate
  else if (now.setYearPlusOne).toMin < newStartDate.toMin then some .horizonExceeded
  else conflictLoop present event newEndDate newStartDate

/-- **C10.** On well-formed 24-hour times (hours 0–23, minutes 0–59) the
drop validator's `parseInt(time.replace(":", ""))` HHMM encoding and
`doTimesOverlap`'s `timeToMinutes` encoding give the same overlap verdict:
both encodings order times lexicographically, so the two embeddings of the
half-open overlap test agree on every pair of ranges. -/
theorem hhmmOverlap_eq_doTimesOverlap (s1 e1 s2 e2 : HM)
    (hs1h : s1.hours < 24) (hs1m : s1.minutes < 60)
    (he1h : e1.hours < 24) (he1m : e1.minutes < 60)
    (hs2h : s2.hours < 24) (hs2m : s2.minutes < 60)
    (he2h : e2.hours < 24) (he2m : e2.minutes < 60) :
    hhmmOverlap s1 e1 s2 e2 = doTimesOverlap s1 e1 s2 e2 := by
  obtain ⟨a1, b1⟩ := s1
  obtain ⟨a2, b2⟩ := e1
  obtain ⟨a3, b3⟩ := s2
  obtain ⟨a4, b4⟩ := e2
  simp only [hhmmOverlap, doTimesOverlap, hhmmCode, timeToMinutes] at *
  congr 1 <;> exact decide_eq_decide.mpr (by constructor <;> intro <;> omega)

theorem hhmmOverlap_eq_doTimesOverlap_witness :
    ((9 : Nat) < 24 ∧ (0 : Nat) < 60 ∧ (10 : Nat) < 24 ∧ (30 : Nat) < 60 ∧
      (10 : Nat) < 24 ∧ (0 : Nat) < 60 ∧ (11 : Nat) < 24 ∧ (0 : Nat) < 60) ∧
    hhmmOverlap ⟨9, 0⟩ ⟨10, 30⟩ ⟨10, 0⟩ ⟨11, 0⟩ =
      doTimesOverlap ⟨9, 0⟩ ⟨10, 30⟩ ⟨10, 0⟩ ⟨11, 0⟩ :=
  ⟨by decide,
    hhmmOverlap_eq_doTimesOverlap ⟨9, 0⟩ ⟨10, 30⟩ ⟨10, 0⟩ ⟨11, 0⟩
      (by decide) (by decide) (by decide) (by decide)
      (by decide) (by decide) (by decide) (by decide)⟩

/-- The scanning loop can only report a time conflict (or accept). -/
theorem conflictLoop_result (present : List CalendarEvent) (ev : CalendarEvent)
    (stop cur : JSDate) :
    conflictLoop present ev stop cur = none ∨
      conflictLoop present ev stop cur = some .timeConflict := by
  induction cur using conflictLoop.induct present ev stop with
  | case1 cur hle hc =>
    right
    rw [conflictLoop]
    simp [hle, hc]
  | case2 cur hle hc ih =>
    rw [conflictLoop]
    simp only [hle, hc, dite_true, if_false, dif_pos, if_neg, Bool.not_eq_true]
    exact ih
  | case3 cur hle =>
    left
    rw [conflictLoop]
    simp [hle]

/-- **C3.** The validator rejects with `PastDate` exactly when the proposed
start lies on a calendar day strictly before the current day: the code
compares the raw start timestamp against today's midnight, and for any
well-formed time-of-day (< 24h) that comparison is precisely the
day-granularity one, ignoring the start's time-of-day. -/
theorem isValidDropDate_pastDate_iff (now : JSDate) (present : List CalendarEvent)
    (ev : CalendarEvent) (s e : JSDate) (hs : s.minute < 1440) :
    isValidDropDate now present ev s e = some .pastDate ↔
      s.dayNumber < now.dayNumber := by
  have hmid : (now.setHours0).toMin = 1440 * now.dayNumber := by
    simp [JSDate.setHours0, JSDate.toMin, JSDate.dayNumber]
  have hsplit : s.toMin = 1440 * s.dayNumber + (s.minute : Int) := rfl
  unfold isValidDropDate
  by_cases h1 : s.toMin < (now.setHours0).toMin
  · simp only [h1, if_true]
    rw [hmid, hsplit] at h1
    constructor
    · intro _
      omega
    · intro _
      trivial
  · simp only [h1, if_false]
    rw [hmid, hsplit] at h1
    have hrhs : ¬ s.dayNumber < now.dayNumber := by omega
    simp only [hrhs, iff_false]
    by_cases h2 : (now.setYearPlusOne).toMin < s.toMin
    · simp [h2]
    · simp only [h2, if_false]
      rcases conflictLoop_result present ev e s with h | h <;> simp [h]

theorem isValidDropDate_pastDate_iff_witness :
    (JSDate.minute ⟨2025, 6, 1, 0⟩ < 1440) ∧
      (isValidDropDate ⟨2025, 6, 15, 600⟩ [] ⟨"1", "t", "", ⟨2025, 6, 1, 0⟩, ⟨2025, 6, 1, 0⟩,
          ⟨9, 0⟩, ⟨10, 0⟩, .other, false, none⟩ ⟨2025, 6, 1, 0⟩ ⟨2025, 6, 1, 0⟩ =
          some .pastDate ↔
        JSDate.dayNumber ⟨2025, 6, 1, 0⟩ < JSDate.dayNumber ⟨2025, 6, 15, 600⟩) :=
  ⟨by decide,
    isValidDropDate_pastDate_iff ⟨2025, 6, 15, 600⟩ []
      ⟨"1", "t", "", ⟨2025, 6, 1, 0⟩, ⟨2025, 6, 1, 0⟩, ⟨9, 0⟩, ⟨10, 0⟩, .other, false, none⟩
      ⟨2025, 6, 1, 0⟩ ⟨2025, 6, 1, 0⟩ (by decide)⟩

/-- Per-day conflict testing only depends on the cursor's calendar day:
`isDateInEventRange` zeroes every time-of-day before comparing. -/
theorem hasConflictOn_eq_dayConflict (p : List CalendarEvent) (ev : CalendarEvent)
    (cur : JSDate) :
    hasConflictOn p ev cur = dayConflict p ev cur.dayNumber := by
  have key : ∀ dt : JSDate, (dt.setHours0).toMin = 1440 * dt.dayNumber := by
    intro dt
    simp [JSDate.setHours0, JSDate.toMin, JSDate.dayNumber]
  unfold hasConflictOn dayConflict
  congr 1
  apply List.filter_congr
  intro x _
  have h1 : isDateInEventRange cur x =
      (decide (x.startDate.dayNumber ≤ cur.dayNumber) &&
        decide (cur.dayNumber ≤ x.endDate.dayNumber)) := by
    unfold isDateInEventRange
    rw [key, key, key]
    congr 1 <;> exact decide_eq_decide.mpr (by omega)
  rw [h1]

/-- Characterization of the scanning loop: starting from a cursor `cur`
with a well-formed time-of-day, it reports `TimeConflict` exactly when the
cursor has not already passed `stop` and some calendar day between the
cursor's and `stop`'s (inclusive) carries a conflicting other event. -/
theorem conflictLoop_timeConflict_iff (present : List CalendarEvent) (ev : CalendarEvent)
    (stop : JSDate) (hstop : stop.minute < 1440) (cur : JSDate) :
    cur.minute < 1440 →
      (conflictLoop present ev stop cur = some .timeConflict ↔
        (cur.toMin ≤ stop.toMin ∧
          ∃ d : Int, cur.dayNumber ≤ d ∧ d ≤ stop.dayNumber ∧
            dayConflict present ev d = true)) := by
  have htm : ∀ dt : JSDate, dt.toMin = 1440 * dt.dayNumber + (dt.minute : Int) :=
    fun _ => rfl
  induction cur using conflictLoop.induct present ev stop with
  | case1 cur hle hc =>
    intro hcm
    have hL : conflictLoop present ev stop cur = some .timeConflict := by
      rw [conflictLoop]
      simp [hle, hc]
    have hdc : dayConflict present ev cur.dayNumber = true := by
      rw [← hasConflictOn_eq_dayConflict]
      exact hc
    have hdd : cur.dayNumber ≤ stop.dayNumber := by
      rw [htm cur, htm stop] at hle
      omega
    exact iff_of_true hL ⟨hle, cur.dayNumber, le_refl _, hdd, hdc⟩
  | case2 cur hle hc ih =>
    intro hcm
    simp only [dite_eq_ite] at ih
    have hL : conflictLoop present ev stop cur =
        conflictLoop present ev stop
          { year := cur.year, month := cur.month, day := cur.day + 1,
            minute := if present.isEmpty then cur.minute else 0 } := by
      rw [conflictLoop]
      simp [hle, hc]
    have hcc : dayConflict present ev cur.dayNumber = false := by
      rw [← hasConflictOn_eq_dayConflict]
      simpa using hc
    cases hp : present.isEmpty with
    | true =>
      have hpe : present = [] := List.isEmpty_iff.mp hp
      have hdc : ∀ d : Int, dayConflict present ev d = false := by
        intro d
        simp [dayConflict, hpe]
      rw [hL, ih (by simpa [hp] using hcm)]
      simp [hdc]
    | false =>
      set next : JSDate :=
        { year := cur.year, month := cur.month, day := cur.day + 1,
          minute := if present.isEmpty then cur.minute else 0 } with hnext
      have hnm : next.minute = 0 := by
        simp [hnext, hp]
      have hdn : next.dayNumber = cur.dayNumber + 1 := by
        simp [hnext, JSDate.dayNumber, daysFromCivil_day_succ]
      have hnt : next.toMin = 1440 * (cur.dayNumber + 1) := by
        rw [htm next, hdn, hnm]
        simp
      rw [hL, ih (by simp [hp])]
      constructor
      · rintro ⟨hg, d, hd1, hd2, hd3⟩
        rw [hdn] at hd1
        exact ⟨hle, d, by omega, hd2, hd3⟩
      · rintro ⟨hg, d, hd1, hd2, hd3⟩
        have hdne : d ≠ cur.dayNumber := by
          intro he
          rw [he, hcc] at hd3
          exact Bool.false_ne_true hd3
        refine ⟨?_, d, ?_, hd2, hd3⟩
        · rw [hnt, htm stop]
          rw [htm cur, htm stop] at hle
          omega
        · rw [hdn]
          omega
  | case3 cur hle =>
    intro hcm
    have hL : conflictLoop present ev stop cur = none := by
      rw [conflictLoop]
      simp [hle]
    rw [hL]
    simp [hle]

/-- Unfolding of the per-day conflict test: some other event (different
identity) whose date range contains the day `d` overlaps the candidate's
time range under the code's half-open `HHMM` interval test. -/
theorem dayConflict_iff (p : List CalendarEvent) (ev : CalendarEvent) (d : Int) :
    dayConflict p ev d = true ↔
      ∃ x ∈ p, x.id ≠ ev.id ∧
        x.startDate.dayNumber ≤ d ∧ d ≤ x.endDate.dayNumber ∧
        hhmmOverlap ev.startTime ev.endTime x.startTime x.endTime = true := by
  unfold dayConflict
  simp only [List.any_eq_true, List.mem_filter, Bool.and_eq_true, bne_iff_ne,
    decide_eq_true_eq, ne_eq]
  constructor
  · rintro ⟨x, ⟨hxp, ⟨h1, h2⟩, h3⟩, h4⟩
    exact ⟨x, hxp, h3, h1, h2, h4⟩
  · rintro ⟨x, hxp, h3, h1, h2, h4⟩
    exact ⟨x, ⟨hxp, ⟨h1, h2⟩, h3⟩, h4⟩

/-- **C4.** For a well-formed proposed range (`start ≤ end`, times-of-day
below 24h) the validator reports `TimeConflict` precisely when neither of
the earlier guards fires and some calendar day `d` in the inclusive range
`[start, end]` — interior days of multi-day events included, since
containment is tested day by day — carries another event (different
identity) whose date range contains `d` and whose time range intersects the
candidate's under the half-open test `aStart < bEnd && aEnd > bStart`. -/
theorem isValidDropDate_timeConflict_iff (now : JSDate) (present : List CalendarEvent)
    (ev : CalendarEvent) (s e : JSDate)
    (hs : s.minute < 1440) (he : e.minute < 1440) (hse : s.toMin ≤ e.toMin) :
    isValidDropDate now present ev s e = some .timeConflict ↔
      (¬ s.toMin < (now.setHours0).toMin ∧
        ¬ (now.setYearPlusOne).toMin < s.toMin ∧
        ∃ d : Int, s.dayNumber ≤ d ∧ d ≤ e.dayNumber ∧
          ∃ x ∈ present, x.id ≠ ev.id ∧
            x.startDate.dayNumber ≤ d ∧ d ≤ x.endDate.dayNumber ∧
            hhmmOverlap ev.startTime ev.endTime x.startTime x.endTime = true) := by
  unfold isValidDropDate
  by_cases h1 : s.toMin < (now.setHours0).toMin
  · rw [if_pos h1]
    simp [h1]
  · by_cases h2 : (now.setYearPlusOne).toMin < s.toMin
    · rw [if_neg h1, if_pos h2]
      simp [h2]
    · rw [if_neg h1, if_neg h2]
      rw [conflictLoop_timeConflict_iff present ev e he s hs]
      constructor
      · rintro ⟨-, d, hd1, hd2, hdc⟩
        rcases (dayConflict_iff present ev d).mp hdc with ⟨x, hxp, hne, hc1, hc2, hov⟩
        exact ⟨h1, h2, d, hd1, hd2, x, hxp, hne, hc1, hc2, hov⟩
      · rintro ⟨-, -, d, hd1, hd2, x, hxp, hne, hc1, hc2, hov⟩
        exact ⟨hse, d, hd1, hd2,
          (dayConflict_iff present ev d).mpr ⟨x, hxp, hne, hc1, hc2, hov⟩⟩

/-- A multi-day event occupying June 10–12 2025, 09:00–10:00. -/
def multiDayEventA : CalendarEvent :=
  ⟨"A", "offsite", "", ⟨2025, 6, 10, 0⟩, ⟨2025, 6, 12, 0⟩, ⟨9, 0⟩, ⟨10, 0⟩, .work, true, none⟩

/-- A candidate event with an overlapping 09:30–10:30 time range. -/
def candidateEventB : CalendarEvent :=
  ⟨"B", "standup", "", ⟨2025, 6, 5, 0⟩, ⟨2025, 6, 5, 0⟩, ⟨9, 30⟩, ⟨10, 30⟩, .meeting, false, none⟩

theorem isValidDropDate_timeConflict_iff_witness :
    (JSDate.minute ⟨2025, 6, 11, 0⟩ < 1440 ∧
        JSDate.toMin ⟨2025, 6, 11, 0⟩ ≤ JSDate.toMin ⟨2025, 6, 11, 0⟩) ∧
      (isValidDropDate ⟨2025, 6, 1, 480⟩ [multiDayEventA] candidateEventB
          ⟨2025, 6, 11, 0⟩ ⟨2025, 6, 11, 0⟩ = some .timeConflict ↔
        (¬ JSDate.toMin ⟨2025, 6, 11, 0⟩ <
            (JSDate.setHours0 ⟨2025, 6, 1, 480⟩).toMin ∧
          ¬ (JSDate.setYearPlusOne ⟨2025, 6, 1, 480⟩).toMin <
              JSDate.toMin ⟨2025, 6, 11, 0⟩ ∧
          ∃ d : Int, JSDate.dayNumber ⟨2025, 6, 11, 0⟩ ≤ d ∧
            d ≤ JSDate.dayNumber ⟨2025, 6, 11, 0⟩ ∧
            ∃ x ∈ [multiDayEventA], x.id ≠ candidateEventB.id ∧
              x.startDate.dayNumber ≤ d ∧ d ≤ x.endDate.dayNumber ∧
              hhmmOverlap candidateEventB.startTime candidateEventB.endTime
                x.startTime x.endTime = true)) :=
  ⟨⟨by decide, by decide⟩,
    isValidDropDate_timeConflict_iff ⟨2025, 6, 1, 480⟩ [multiDayEventA] candidateEventB
      ⟨2025, 6, 11, 0⟩ ⟨2025, 6, 11, 0⟩ (by decide) (by decide) (by decide)⟩

/-- The date computation of `handleDragEnd` (CalendarView.tsx): given the
displayed month/year and the destination grid day, compute
`daysDiff = event.endDate.getDate() - event.startDate.getDate()` (a
difference of day-of-month values), build `newStartDate` at the destination
day of the displayed month (midnight), and set
`newEndDate = new Date(newStartDate)` shifted by `setDate(getDate() +
daysDiff)`. -/
def moveDates (dispYear dispMonth destDay : Int) (ev : CalendarEvent) : JSDate × JSDate :=
  let daysDiff := ev.endDate.getDate - ev.startDate.getDate
  let newStartDate : JSDate := ⟨dispYear, dispMonth, destDay, 0⟩
  let newEndDate : JSDate :=
    { newStartDate with day := newStartDate.getDate + daysDiff }
  (newStartDate, newEndDate)

/-- The number of calendar days an inclusive date range spans. -/
def spanDays (a b : JSDate) : Int :=
  b.dayNumber - a.dayNumber + 1

/-- An event crossing a month boundary: January 31 to February 1, 2025
(two calendar days). -/
def monthCrossingEvent : CalendarEvent :=
  ⟨"M", "trip", "", ⟨2025, 1, 31, 0⟩, ⟨2025, 2, 1, 0⟩, ⟨9, 0⟩, ⟨10, 0⟩, .personal, true, none⟩

/-- **C5, counterexample.** Moving the January 31 – February 1 event (a
2-day span) to day 10 of the displayed March 2025 grid does *not* preserve
its duration: `daysDiff = 1 - 31 = -30`, so the moved range spans −29
"days" instead of 2. -/
theorem moveDates_does_not_preserve_span :
    spanDays (moveDates 2025 3 10 monthCrossingEvent).1
        (moveDates 2025 3 10 monthCrossingEvent).2 ≠
      spanDays monthCrossingEvent.startDate monthCrossingEvent.endDate := by
  decide

/-- **C5, amended.** When the event's start and end date lie in the same
calendar month of the same year — the only case in which the
`getDate()`-difference equals the day-count difference — the move preserves
the event's span in calendar days. -/
theorem moveDates_preserves_span_same_month (dispYear dispMonth destDay : Int)
    (ev : CalendarEvent)
    (hm : ev.startDate.month = ev.endDate.month)
    (hy : ev.startDate.year = ev.endDate.year) :
    spanDays (moveDates dispYear dispMonth destDay ev).1
        (moveDates dispYear dispMonth destDay ev).2 =
      spanDays ev.startDate ev.endDate := by
  unfold moveDates spanDays
  simp only [JSDate.getDate, JSDate.dayNumber]
  rw [← hm, ← hy]
  rw [daysFromCivil_day_shift dispYear dispMonth
        (destDay + (ev.endDate.day - ev.startDate.day)) destDay,
      daysFromCivil_day_shift ev.startDate.year ev.startDate.month
        ev.endDate.day ev.startDate.day]
  ring

/-- An ordinary same-month event: June 10–12, 2025. -/
def sameMonthEvent : CalendarEvent :=
  ⟨"S", "retreat", "", ⟨2025, 6, 10, 0⟩, ⟨2025, 6, 12, 0⟩, ⟨9, 0⟩, ⟨10, 0⟩, .work, true, none⟩

theorem moveDates_preserves_span_same_month_witness :
    (JSDate.month sameMonthEvent.startDate = JSDate.month sameMonthEvent.endDate ∧
        JSDate.year sameMonthEvent.startDate = JSDate.year sameMonthEvent.endDate) ∧
      spanDays (moveDates 2025 7 20 sameMonthEvent).1
          (moveDates 2025 7 20 sameMonthEvent).2 =
        spanDays sameMonthEvent.startDate sameMonthEvent.endDate :=
  ⟨⟨rfl, rfl⟩,
    moveDates_preserves_span_same_month 2025 7 20 sameMonthEvent rfl rfl⟩

/-- The collection transformation inside `handleDeleteEvent`
(CalendarView.tsx): `present.filter((event) => event.id !== eventId)`. -/
def deleteEvent (c : List CalendarEvent) (eventId : String) : List CalendarEvent :=
  c.filter fun e => e.id != eventId

/-- `handleDeleteEvent` (CalendarView.tsx): commit the filtered collection
through the history (this push happens even when nothing matched). -/
def handleDeleteEvent (h : HistoryState) (eventId : String) : HistoryState :=
  pushToHistory h (deleteEvent h.present eventId)

/-- **C6.** Delete is idempotent on the collection, and deleting an absent
identity leaves the collection itself unchanged (a no-op, not an error). -/
theorem deleteEvent_idempotent_and_absent_noop (c : List CalendarEvent) (eventId : String) :
    deleteEvent (deleteEvent c eventId) eventId = deleteEvent c eventId ∧
      ((∀ x ∈ c, x.id ≠ eventId) → deleteEvent c eventId = c) := by
  constructor
  · simp [deleteEvent, List.filter_filter]
  · intro hab
    apply List.filter_eq_self.mpr
    intro x hx
    simpa [bne_iff_ne] using hab x hx

theorem deleteEvent_idempotent_and_absent_noop_witness :
    deleteEvent (deleteEvent [multiDayEventA] "Z") "Z" = deleteEvent [multiDayEventA] "Z" ∧
      deleteEvent [multiDayEventA] "Z" = [multiDayEventA] :=
  ⟨(deleteEvent_idempotent_and_absent_noop [multiDayEventA] "Z").1,
    (deleteEvent_idempotent_and_absent_noop [multiDayEventA] "Z").2 (by decide)⟩

/-- Outcome vocabulary for an update, from the spec's error kinds.  The
code has no `NotFound` branch at all: `handleUpdateEvent` maps over the
collection, commits, and unconditionally shows the "Event saved
successfully!" notification (its `catch` only covers storage failures), so
the model can only ever produce `success`. -/
inductive UpdateOutcome where
  | success
  | notFound
deriving DecidableEq, Repr

/-- The collection transformation inside `handleUpdateEvent`
(CalendarView.tsx): `present.map((event) => event.id === updatedEvent.id ?
updatedEvent : event)`. -/
def updateEvent (c : List CalendarEvent) (updated : CalendarEvent) : List CalendarEvent :=
  c.map fun e => if e.id = updated.id then updated else e

/-- `handleUpdateEvent` (CalendarView.tsx): commit the mapped collection
through the history and report the observable outcome (the success
notification). -/
def handleUpdateEvent (h : HistoryState) (updated : CalendarEvent) :
    HistoryState × UpdateOutcome :=
  (pushToHistory h (updateEvent h.present updated), .success)

theorem updateEvent_absent (c : List CalendarEvent) (updated : CalendarEvent) :
    (∀ x ∈ c, x.id ≠ updated.id) → updateEvent c updated = c := by
  induction c with
  | nil => intro _; rfl
  | cons a t ih =>
    intro hab
    have ha : a.id ≠ updated.id := hab a (List.mem_cons_self a t)
    have ht := ih fun x hx => hab x (List.mem_cons_of_mem a hx)
    simp only [updateEvent, List.map_cons] at ht ⊢
    rw [if_neg ha, ht]

/-- **C7, counterexample.** Updating with an identity absent from the
collection does leave the collection unchanged, but no `NotFound` is
signalled: the operation reports success (and still pushes a history
entry). -/
theorem handleUpdateEvent_absent_reports_success :
    CalendarEvent.id multiDayEventA ≠ CalendarEvent.id candidateEventB ∧
      (handleUpdateEvent ⟨[], [multiDayEventA], []⟩ candidateEventB).1.present =
        [multiDayEventA] ∧
      (handleUpdateEvent ⟨[], [multiDayEventA], []⟩ candidateEventB).1.past =
        [[multiDayEventA]] ∧
      (handleUpdateEvent ⟨[], [multiDayEventA], []⟩ candidateEventB).2 ≠
        UpdateOutcome.notFound := by
  decide

/-- **C7, amended.** `update` replaces the element with the matching
identity; when no element of the collection has that identity the
collection is left unchanged, but the operation signals success — still
pushing a history entry — rather than surfacing `NotFound`. -/
theorem handleUpdateEvent_absent_behavior (h : HistoryState) (updated : CalendarEvent)
    (hab : ∀ x ∈ h.present, x.id ≠ updated.id) :
    (handleUpdateEvent h updated).1.present = h.present ∧
      (handleUpdateEvent h updated).1.past = h.past ++ [h.present] ∧
      (handleUpdateEvent h updated).2 = .success :=
  ⟨updateEvent_absent h.present updated hab, rfl, rfl⟩

theorem handleUpdateEvent_absent_behavior_witness :
    (handleUpdateEvent ⟨[], [multiDayEventA], []⟩ candidateEventB).1.present =
        [multiDayEventA] ∧
      (handleUpdateEvent ⟨[], [multiDayEventA], []⟩ candidateEventB).1.past =
        [] ++ [[multiDayEventA]] ∧
      (handleUpdateEvent ⟨[], [multiDayEventA], []⟩ candidateEventB).2 = .success :=
  handleUpdateEvent_absent_behavior ⟨[], [multiDayEventA], []⟩ candidateEventB (by decide)

/-- JS `String.prototype.trim()`: drop whitespace from both ends.
(Embedded directly on the character list so that it evaluates inside the
kernel.) -/
def trimStr (s : String) : String :=
  ⟨((s.data.dropWhile Char.isWhitespace).reverse.dropWhile Char.isWhitespace).reverse⟩

/-- `isSameDate` inside `findOverlappingEvent` (utils/dateTime.ts):
compare `getFullYear`/`getMonth`/`getDate`.  A missing date (`new
Date(undefined)` is an Invalid Date whose getters are `NaN`, and `NaN ===
NaN` is false) never equals anything, hence the `none` cases. -/
def isSameDateOpt : Option JSDate → Option JSDate → Bool
  | some a, some b =>
    decide (a.year = b.year) && decide (a.month = b.month) && decide (a.day = b.day)
  | _, _ => false

/-- `findOverlappingEvent` (utils/dateTime.ts): first event that is not the
excluded one, sits on the same `date`, and has an overlapping time range.
Stored `CalendarEvent`s carry no `date` field (it is outside the TS
interface), so for them the same-day test is against `none`. -/
def findOverlappingEvent (newDate : Option JSDate) (newStart newEnd : HM)
    (existingEvents : List CalendarEvent) (excludeEventId : Option String) :
    Option CalendarEvent :=
  existingEvents.find? fun existing =>
    if (match excludeEventId with
        | some i => existing.id == i
        | none => false) then
      false
    else if !isSameDateOpt existing.date newDate then false
    else doTimesOverlap newStart newEnd existing.startTime existing.endTime

/-- `validateTimeRange` (utils/dateTime.ts): an error message when
`endMinutes <= startMinutes`, `null` otherwise. -/
def validateTimeRange (startTime endTime : HM) : Option String :=
  if timeToMinutes endTime ≤ timeToMinutes startTime then
    some "End time must be after start time"
  else none

/-- The error kinds `validateForm` (EventModal.tsx) can record: a missing
title, an invalid time range, and an overlap with another event. -/
inductive FormError where
  | emptyTitle
  | invalidTimeRange
  | timeOverlap
deriving DecidableEq, Repr

/-- `validateForm` (EventModal.tsx): collect the errors of the three
checks; the form is valid when the collection is empty. -/
def validateForm (title : String) (startTime endTime : HM) (selectedDate : JSDate)
    (eventsForDay : List CalendarEvent) (excludeEventId : Option String) :
    List FormError :=
  (if trimStr title = "" then [FormError.emptyTitle] else []) ++
    (if (validateTimeRange startTime endTime).isSome then [FormError.invalidTimeRange]
      else []) ++
    (if (findOverlappingEvent (some selectedDate) startTime endTime eventsForDay
          excludeEventId).isSome then
      [FormError.timeOverlap]
    else [])

/-- `handleModalSave` (CalendarView.tsx): bail out on a falsy (empty)
title, otherwise append the new event (trimmed title/description, the
selected day as both start and end) and commit through the history.  The
modal state always holds concrete `HH:MM` times (initialized to
09:00/10:00), so the `|| "09:00"` fallbacks never see an empty string. -/
def handleModalSave (h : HistoryState) (selectedDate : JSDate) (newId title desc : String)
    (startTime endTime : HM) (ty : EventType) : HistoryState :=
  if title = "" then h
  else
    pushToHistory h (h.present ++
      [{ id := newId, title := trimStr title, description := trimStr desc,
         startDate := selectedDate, endDate := selectedDate,
         startTime := startTime, endTime := endTime, type := ty,
         isMultiDay := false, date := none }])

/-- `handleSubmit` of EventModal.tsx in create mode: run `validateForm`
and only call `onSave` (= `handleModalSave`) when no error was recorded. -/
def handleSubmitCreate (h : HistoryState) (selectedDate : JSDate)
    (eventsForDay : List CalendarEvent) (newId title desc : String)
    (startTime endTime : HM) (ty : EventType) : HistoryState :=
  if validateForm title startTime endTime selectedDate eventsForDay none = [] then
    handleModalSave h selectedDate newId title desc startTime endTime ty
  else h

/-- **C8.** Submitting a creation whose title is empty after trimming is
rejected with the empty-title error and performs no mutation: the history
state — `present` included — is returned unchanged. -/
theorem create_empty_title_rejected (h : HistoryState) (selectedDate : JSDate)
    (eventsForDay : List CalendarEvent) (newId title desc : String)
    (startTime endTime : HM) (ty : EventType)
    (ht : trimStr title = "") :
    FormError.emptyTitle ∈
        validateForm title startTime endTime selectedDate eventsForDay none ∧
      handleSubmitCreate h selectedDate eventsForDay newId title desc
          startTime endTime ty = h := by
  have hv : FormError.emptyTitle ∈
      validateForm title startTime endTime selectedDate eventsForDay none := by
    unfold validateForm
    rw [if_pos ht]
    simp
  refine ⟨hv, ?_⟩
  unfold handleSubmitCreate
  rw [if_neg]
  intro he
  rw [he] at hv
  exact List.not_mem_nil _ hv

theorem create_empty_title_rejected_witness :
    trimStr "   " = "" ∧
      FormError.emptyTitle ∈
          validateForm "   " ⟨9, 0⟩ ⟨10, 0⟩ ⟨2025, 6, 5, 0⟩ [] none ∧
        handleSubmitCreate ⟨[], [multiDayEventA], []⟩ ⟨2025, 6, 5, 0⟩ [] "7" "   " ""
            ⟨9, 0⟩ ⟨10, 0⟩ .other = ⟨[], [multiDayEventA], []⟩ :=
  ⟨by decide,
    create_empty_title_rejected ⟨[], [multiDayEventA], []⟩ ⟨2025, 6, 5, 0⟩ [] "7" "   " ""
      ⟨9, 0⟩ ⟨10, 0⟩ .other (by decide)⟩

/-- `handleDragEnd` (CalendarView.tsx) as a transformation of the history
state: find the dragged event, build the candidate range with `moveDates`,
validate, and either return the state unchanged (missing event or rejected
drop) or commit the updated event.  The 50 ms `setTimeout` around the
commit only defers it; the committed value is the one modelled here. -/
def handleDragEnd (now : JSDate) (h : HistoryState) (dispYear dispMonth : Int)
    (draggableId : String) (destDay : Int) : HistoryState :=
  match h.present.find? fun e => e.id == draggableId with
  | none => h
  | some event =>
    let nd := moveDates dispYear dispMonth destDay event
    if (isValidDropDate now h.present event nd.1 nd.2).isSome then h
    else
      pushToHistory h (h.present.map fun e =>
        if e.id == draggableId then
          { event with startDate := nd.1, endDate := nd.2 }
        else e)

/-- The edge being resized (`position: "start" | "end"`). -/
inductive ResizeEdge where
  | startEdge
  | endEdge
deriving DecidableEq, Repr

/-- The candidate event `handleResize` (CalendarView.tsx) builds: quantize
the pixel delta into whole days (`Math.round(delta / 50)`, which is
`⌊(delta + 25) / 50⌋`) and shift the chosen edge by that many days via
`setDate(getDate() + dayDelta)`. -/
def resizeCandidate (event : CalendarEvent) (position : ResizeEdge) (delta : Int) :
    CalendarEvent :=
  let dayDelta := Int.fdiv (delta + 25) 50
  match position with
  | .startEdge =>
    { event with startDate := { event.startDate with day := event.startDate.day + dayDelta } }
  | .endEdge =>
    { event with endDate := { event.endDate with day := event.endDate.day + dayDelta } }

/-- `handleResize` (CalendarView.tsx) as a transformation of the history
state: bail out on a zero day delta or an edge crossing (`newDate >=
endDate` resp. `newDate <= startDate`); otherwise validate the candidate
and either discard it (rejection: the transient `resizingEvent` overlay is
cleared and the history is untouched) or commit it.  The debounce only
collapses rapid deltas into one such validate-and-commit. -/
def handleResize (now : JSDate) (h : HistoryState) (event : CalendarEvent)
    (position : ResizeEdge) (delta : Int) : HistoryState :=
  let dayDelta := Int.fdiv (delta + 25) 50
  if dayDelta = 0 then h
  else
    let newEvent := resizeCandidate event position delta
    let edgeOk :=
      match position with
      | .startEdge => decide (newEvent.startDate.toMin < event.endDate.toMin)
      | .endEdge => decide (event.startDate.toMin < newEvent.endDate.toMin)
    if !edgeOk then h
    else if (isValidDropDate now h.present newEvent newEvent.startDate
        newEvent.endDate).isSome then h
    else
      pushToHistory h (h.present.map fun e => if e.id == event.id then newEvent else e)

/-- **C9.** A move or resize gesture whose candidate date range the
validator rejects leaves the history state fully unchanged: `present`
keeps the pre-gesture event, no history entry is pushed, and `future` is
not cleared. -/
theorem rejected_gesture_leaves_state_unchanged :
    (∀ (now : JSDate) (h : HistoryState) (dispYear dispMonth : Int)
        (draggableId : String) (destDay : Int) (event : CalendarEvent) (r : DropError),
        (h.present.find? fun e => e.id == draggableId) = some event →
        isValidDropDate now h.present event
            (moveDates dispYear dispMonth destDay event).1
            (moveDates dispYear dispMonth destDay event).2 = some r →
        handleDragEnd now h dispYear dispMonth draggableId destDay = h) ∧
      (∀ (now : JSDate) (h : HistoryState) (event : CalendarEvent)
          (position : ResizeEdge) (delta : Int) (r : DropError),
          isValidDropDate now h.present (resizeCandidate event position delta)
              (resizeCandidate event position delta).startDate
              (resizeCandidate event position delta).endDate = some r →
          handleResize now h event position delta = h) := by
  constructor
  · intro now h dispYear dispMonth draggableId destDay event r hfind hrej
    unfold handleDragEnd
    rw [hfind]
    simp [hrej]
  · intro now h event position delta r hrej
    unfold handleResize
    by_cases h0 : Int.fdiv (delta + 25) 50 = 0
    · simp [h0]
    · simp only [h0, if_false, hrej, Option.isSome_some, if_true, ite_self]

theorem rejected_gesture_leaves_state_unchanged_witness :
    ((HistoryState.present ⟨[], [multiDayEventA], []⟩).find?
          (fun e => e.id == "A") = some multiDayEventA ∧
        isValidDropDate ⟨2025, 6, 15, 600⟩ [multiDayEventA] multiDayEventA
            (moveDates 2025 6 2 multiDayEventA).1
            (moveDates 2025 6 2 multiDayEventA).2 = some .pastDate ∧
        handleDragEnd ⟨2025, 6, 15, 600⟩ ⟨[], [multiDayEventA], []⟩ 2025 6 "A" 2 =
          ⟨[], [multiDayEventA], []⟩) ∧
      (isValidDropDate ⟨2025, 7, 15, 600⟩ [multiDayEventA]
            (resizeCandidate multiDayEventA .endEdge 100)
            (resizeCandidate multiDayEventA .endEdge 100).startDate
            (resizeCandidate multiDayEventA .endEdge 100).endDate = some .pastDate ∧
        handleResize ⟨2025, 7, 15, 600⟩ ⟨[], [multiDayEventA], []⟩ multiDayEventA
            .endEdge 100 = ⟨[], [multiDayEventA], []⟩) :=
  ⟨⟨by decide, by decide,
      rejected_gesture_leaves_state_unchanged.1 ⟨2025, 6, 15, 600⟩
        ⟨[], [multiDayEventA], []⟩ 2025 6 "A" 2 multiDayEventA .pastDate
        (by decide) (by decide)⟩,
    ⟨by decide,
      rejected_gesture_leaves_state_unchanged.2 ⟨2025, 7, 15, 600⟩
        ⟨[], [multiDayEventA], []⟩ multiDayEventA .endEdge 100 .pastDate (by decide)⟩⟩
